import Mathlib

/-!
Verification development for the aster-tools hedging engine.

The JavaScript sources are embedded shallowly: quantities are rationals
(the code's `parseFloat(x.toFixed(3))` becomes an explicit round-to-3-decimals
function), stateful polling loops become structurally recursive functions over
an explicit script of observed poll replies, and the signal handler becomes a
pure state-transition function.  Market orders are assumed to execute at their
requested size, and an exchange `FILLED` reply reports `executedQty = origQty`.
-/

namespace AsterTools

/-- Rounding to 3 decimal places, half up.  Models JavaScript
`parseFloat(x.toFixed(3))` for the non-negative quantities this code formats. -/
def round3 (x : ℚ) : ℚ := ((Int.floor (x * 1000 + 1/2) : ℤ) : ℚ) / 1000

/-- `HedgeTool.formatQuantity` (index.js): zero is returned unchanged,
any other quantity is rounded to 3 decimals. -/
def formatQuantity (q : ℚ) : ℚ := if q = 0 then 0 else round3 q

/-- `AsterFuturesAPI.getOrderBook`: the fixed set of depth limits the
exchange accepts. -/
def validLimits : List ℕ := [5, 10, 20, 50, 100, 500, 1000]

/-- Depth-limit handling in `getOrderBook`:
`validLimits.includes(limit) ? limit : 5`. -/
def snapDepthLimit (limit : ℕ) : ℕ := if limit ∈ validLimits then limit else 5

/-- URL-encoded form of a parameter list, modelling
`new URLSearchParams(params).toString()` for values that need no escaping. -/
def encodeParams (ps : List (String × String)) : String :=
  String.intercalate "&" (ps.map (fun kv => kv.1 ++ "=" ++ kv.2))

/-- Parameter and query-string construction of one attempt of the resilient
`AsterFuturesAPI.makeRequest` (three-account variant).  `hmac` abstracts
`crypto.createHmac('sha256', this.apiSecret).update(qs).digest('hex')`;
`offsetMs` is `this.timeOffsetMs`; `recvWindowCfg` is `api.recvWindow`
(`none` when not configured, in which case the default is 10000, a configured
value being clamped to at least 1000).  `paramRecvWindow` is a `recvWindow`
carried in the caller's params: the source line
`reqParams.recvWindow = reqParams.recvWindow || recvWindowDefault` replaces
an absent or falsy (zero) value by the default, which the `if r = 0` branch
mirrors.  The JS assigns the `timestamp`/`recvWindow` fields on the params
object (overwriting any same-named key in place), so this list model appends
them and statements about it assume `params` carries neither key. -/
def buildRequestResilient (hmac : String → String) (now offsetMs : ℤ)
    (recvWindowCfg : Option ℤ) (params : List (String × String))
    (paramRecvWindow : Option ℤ) (needAuth : Bool) :
    List (String × String) × String :=
  if needAuth then
    let recvWindowDefault : ℤ :=
      match recvWindowCfg with
      | some c => max 1000 c
      | none => 10000
    let rw : ℤ :=
      match paramRecvWindow with
      | some r => if r = 0 then recvWindowDefault else r
      | none => recvWindowDefault
    let reqParams :=
      params ++ [("timestamp", toString (now + offsetMs)), ("recvWindow", toString rw)]
    let qs := encodeParams reqParams
    (reqParams, qs ++ "&signature=" ++ hmac qs)
  else
    (params, encodeParams params)

/-- Parameter and query-string construction of the simple
`AsterFuturesAPI.makeRequest` (index.js): `params.timestamp = Date.now()`
with no clock offset, and `params.recvWindow = params.recvWindow || 5000`,
whose falsy check likewise replaces an absent or zero value by 5000. -/
def buildRequestSimple (hmac : String → String) (now : ℤ)
    (params : List (String × String)) (paramRecvWindow : Option ℤ)
    (needAuth : Bool) : List (String × String) × String :=
  if needAuth then
    let rw : ℤ :=
      match paramRecvWindow with
      | some r => if r = 0 then 5000 else r
      | none => 5000
    let reqParams :=
      params ++ [("timestamp", toString now), ("recvWindow", toString rw)]
    let qs := encodeParams reqParams
    (reqParams, qs ++ "&signature=" ++ hmac qs)
  else
    (params, encodeParams params)

/-- Outcome of one attempt inside the resilient `makeRequest` retry loop:
a JSON response, a retryable failure (network error, HTTP 429/5xx, or a
timestamp-skew rejection, per `shouldRetry`), or a non-retryable failure
(validation, bad auth, business rejection). -/
inductive ReqOutcome
  | success
  | failRetryable
  | failFatal
deriving DecidableEq

/-- Result of a finished `makeRequest` call: whether a response was returned,
how many HTTP attempts were issued, and how many Telegram alerts
(`sendTelegramAlert`) were fired. -/
structure ReqRunResult where
  ok : Bool
  attemptsMade : ℕ
  alerts : ℕ
deriving DecidableEq

/-- The retry loop of the resilient `makeRequest` (part of the three-account
variant), run against a script giving the outcome of each successive attempt.
`attempt` is the loop counter (incremented on each failure before the budget
check `attempt > maxRetries`); `none` means the script ran out while the loop
would have kept retrying. -/
def makeRequestRun (maxRetries : ℕ) : ℕ → List ReqOutcome → Option ReqRunResult
  | _, [] => none
  | _, .success :: _ => some ⟨true, 1, 0⟩
  | attempt, .failRetryable :: rest =>
    if attempt + 1 > maxRetries then some ⟨false, 1, 1⟩
    else (makeRequestRun maxRetries (attempt + 1) rest).map
      (fun r => ⟨r.ok, r.attemptsMade + 1, r.alerts⟩)
  | _, .failFatal :: _ => some ⟨false, 1, 1⟩

/-- Exchange order statuses observed by the monitors. -/
inductive OrderStatusKind
  | NEW
  | PARTIALLY_FILLED
  | FILLED
  | CANCELED
  | REJECTED
  | EXPIRED
deriving DecidableEq

/-- The terminal-failure statuses checked by
`['CANCELED', 'REJECTED', 'EXPIRED'].includes(orderInfo.status)`. -/
def isTerminalFailure : OrderStatusKind → Bool
  | .CANCELED => true
  | .REJECTED => true
  | .EXPIRED => true
  | _ => false

/-- Reply of one `getOrderStatus` poll: either an order snapshot or a thrown
(network) error. -/
inductive PollReply
  | ok (status : OrderStatusKind) (executedQty : ℚ)
  | err
deriving DecidableEq

/-- One scripted poll, with the wall-clock time the request takes. -/
structure TimedPoll where
  reply : PollReply
  latency : ℕ
deriving DecidableEq

/-- The record returned by `monitorOrderStatus`. -/
structure MonitorOutcome where
  success : Bool
  filled : Bool
  timeout : Bool
deriving DecidableEq

/-- `AsterFuturesAPI.monitorOrderStatus`, run against a script of timed polls.
The loop guard `Date.now() - startTime < maxWaitTime` is checked with `now`
being elapsed milliseconds since the start.  A successful non-terminal poll is
followed by a 3000 ms sleep, a thrown poll error is swallowed and followed by
a 5000 ms sleep.  Returns the outcome, the elapsed time at return, and the
elapsed times at which polls were issued; `none` when the script ran out. -/
def monitorOrderStatus (maxWaitTime : ℕ) :
    ℕ → List TimedPoll → Option (MonitorOutcome × ℕ × List ℕ)
  | now, [] =>
    if now < maxWaitTime then none else some (⟨false, false, true⟩, now, [])
  | now, p :: rest =>
    if now < maxWaitTime then
      match p.reply with
      | .ok s _ =>
        if s = .FILLED then some (⟨true, true, false⟩, now + p.latency, [now])
        else if isTerminalFailure s then
          some (⟨false, false, false⟩, now + p.latency, [now])
        else
          (monitorOrderStatus maxWaitTime (now + p.latency + 3000) rest).map
            (fun r => (r.1, r.2.1, now :: r.2.2))
      | .err =>
        (monitorOrderStatus maxWaitTime (now + p.latency + 5000) rest).map
          (fun r => (r.1, r.2.1, now :: r.2.2))
    else some (⟨false, false, true⟩, now, [])

/-- One poll observed by `monitorOrderWithRealTimeExecution`: the order status
and cumulative executed quantity reported by the exchange, and whether the
`onPartialFill` callback would throw on this poll (the code catches and logs
such failures). -/
structure FillPoll where
  status : OrderStatusKind
  executedQty : ℚ
  callbackThrows : Bool

/-- The record returned by `monitorOrderWithRealTimeExecution`: success/filled
flags, the returned `totalExecuted`, and the chronological list of
`(newlyExecuted, currentExecuted)` pairs passed to `onPartialFill`. -/
structure StreamResult where
  success : Bool
  filled : Bool
  totalExecuted : ℚ
  reports : List (ℚ × ℚ)

/-- `AsterFuturesAPI.monitorOrderWithRealTimeExecution`, run against the
sequence of poll snapshots the loop actually observes.  `last` is
`lastExecutedQty`; in the source `lastExecutedQty` and `totalExecuted` start
at 0 and are always assigned together (both to `currentExecuted`), so one
state variable carries both.  The callback is invoked exactly when
`newlyExecuted = currentExecuted - lastExecutedQty > 0`; its own failure is
caught (logged) and the state update still runs.  Script exhaustion models
the time-limit exit, which returns the running `totalExecuted`. -/
def monitorRealTime : ℚ → List FillPoll → StreamResult
  | last, [] => ⟨false, false, last, []⟩
  | last, p :: rest =>
    if 0 < p.executedQty - last then
      if p.status = .FILLED then
        ⟨true, true, p.executedQty, [(p.executedQty - last, p.executedQty)]⟩
      else if isTerminalFailure p.status then
        ⟨false, false, p.executedQty, [(p.executedQty - last, p.executedQty)]⟩
      else
        ⟨(monitorRealTime p.executedQty rest).success,
         (monitorRealTime p.executedQty rest).filled,
         (monitorRealTime p.executedQty rest).totalExecuted,
         (p.executedQty - last, p.executedQty) :: (monitorRealTime p.executedQty rest).reports⟩
    else
      if p.status = .FILLED then ⟨true, true, last, []⟩
      else if isTerminalFailure p.status then ⟨false, false, last, []⟩
      else monitorRealTime last rest

/-- Well-formedness of a chronological report list with respect to the last
cumulative quantity reported before it: each report's delta is the difference
between its cumulative total and the previous one, and cumulative totals
strictly increase. -/
def wellFormedReports : ℚ → List (ℚ × ℚ) → Prop
  | _, [] => True
  | base, r :: rest => r.1 = r.2 - base ∧ base < r.2 ∧ wellFormedReports r.2 rest

/-- The last cumulative total in a report list (or `base` when empty). -/
def lastCum : ℚ → List (ℚ × ℚ) → ℚ
  | base, [] => base
  | _, r :: rest => lastCum r.2 rest

/-- The minimum trading unit used throughout the tools (BTC market,
3-decimal precision). -/
def minTradeQuantity : ℚ := 1/1000

/-- The reconciliation tolerance of `validateAndFixHedgeQuantity`. -/
def hedgeTolerance : ℚ := 1/1000

/-- The quantity split produced by
`ThreeAccountHedgeTool.generateQuantityDistribution`. -/
structure QuantityDist where
  mainQuantity : ℚ
  q1 : ℚ
  q2 : ℚ

/-- `ThreeAccountHedgeTool.generateQuantityDistribution`, with the drawn main
quantity `m` (already rounded to 3 decimals by `generateRandomQuantity`) and
the drawn split `r` (`Math.random()` scaled into `[0.2, 0.8]`): the two helper
shares are `m*r` and `m*(1-r)`, floored at the minimum unit, and rescaled by
`m / totalAdjusted` when the floor-adjusted sum exceeds `m`; all three outputs
pass through `parseFloat(x.toFixed(3))`. -/
def generateQuantityDistribution (m r : ℚ) : QuantityDist :=
  let quantity1 := m * r
  let quantity2 := m * (1 - r)
  let finalQuantity1 := max quantity1 minTradeQuantity
  let finalQuantity2 := max quantity2 minTradeQuantity
  let totalAdjusted := finalQuantity1 + finalQuantity2
  if m < totalAdjusted then
    let scaleFactor := m / totalAdjusted
    ⟨round3 m, round3 (finalQuantity1 * scaleFactor), round3 (finalQuantity2 * scaleFactor)⟩
  else
    ⟨round3 m, round3 finalQuantity1, round3 finalQuantity2⟩

/-- Per-helper quantity validation in `ThreeAccountHedgeTool.loopHedge`
(step "验证和修正数量"): format to 3 decimals, and replace a non-positive
result by the minimum trading unit. -/
def validateHelperQty (q : ℚ) : ℚ :=
  if round3 q ≤ 0 then minTradeQuantity else round3 q

/-- Helper hedge quantities dispatched by `ThreeAccountHedgeTool.loopHedge`
after the primary order executed `executedQty`: each share is scaled by
`executedQty / mainQuantity` and then validated. -/
def helperHedgeQuantities (d : QuantityDist) (executedQty : ℚ) : ℚ × ℚ :=
  let fillScale := executedQty / d.mainQuantity
  (validateHelperQty (d.q1 * fillScale), validateHelperQty (d.q2 * fillScale))

/-- Side of an exchange order. -/
inductive OrderSide
  | BUY
  | SELL
deriving DecidableEq

/-- The corrective market order issued by the reconciler: which account
(1 or 2), which side, and the requested quantity. -/
structure FixOrder where
  account : ℕ
  side : OrderSide
  quantity : ℚ
deriving DecidableEq

/-- Decision core of `HedgeTool.validateAndFixHedgeQuantity` (index.js):
given the two accounts' live position amounts (account 1 long, account 2
short), compute `quantityDiff = |abs(pos1) - abs(pos2)|`; when it exceeds the
tolerance, issue one corrective MARKET order sized
`formatQuantity(difference)` on the under-hedged account.  The returned pair
of rationals is the position state after that order fills at its requested
size (account 2 selling decreases `pos2`, account 1 buying increases `pos1`),
which the code re-queries once to confirm convergence. -/
def validateAndFixHedgeQuantity (pos1Amount pos2Amount : ℚ) :
    Option FixOrder × ℚ × ℚ :=
  let quantityDiff := |(|pos1Amount| - |pos2Amount|)|
  if quantityDiff > hedgeTolerance then
    if |pos1Amount| > |pos2Amount| then
      let fixQuantity := formatQuantity (|pos1Amount| - |pos2Amount|)
      (some ⟨2, .SELL, fixQuantity⟩, pos1Amount, pos2Amount - fixQuantity)
    else if |pos2Amount| > |pos1Amount| then
      let fixQuantity := formatQuantity (|pos2Amount| - |pos1Amount|)
      (some ⟨1, .BUY, fixQuantity⟩, pos1Amount + fixQuantity, pos2Amount)
    else (none, pos1Amount, pos2Amount)
  else (none, pos1Amount, pos2Amount)

/-- The two flags guarding shutdown in the three-account tool:
`exiting` (local to `runAutomatedFlow`'s SIGINT handler) and
`tool.isClosing` (shared with the cycle loop's unwind). -/
structure FlowState where
  exiting : Bool
  isClosing : Bool
deriving DecidableEq

/-- What one delivery of the interrupt signal performed: how many
`cancelAllOpenOrders` sweeps and how many `closeAllPositions` unwinds. -/
structure ShutdownActions where
  cancelSweeps : ℕ
  unwinds : ℕ
deriving DecidableEq

/-- The SIGINT handler of `runAutomatedFlow`: a repeated signal is ignored via
`exiting`; otherwise all open orders are cancelled and, unless the cycle's own
unwind is in progress (`isClosing`), one unwind is performed with `isClosing`
set around it (reset to false afterwards).  `exiting` is set synchronously
before the first await, so a signal delivered while the handler is suspended
also takes the early-return path. -/
def handleInterrupt (s : FlowState) : FlowState × ShutdownActions :=
  if s.exiting then (s, ⟨0, 0⟩)
  else
    if s.isClosing then (⟨true, s.isClosing⟩, ⟨1, 0⟩)
    else (⟨true, false⟩, ⟨1, 1⟩)

/-- One entry of the position list returned by `getPositions`. -/
structure PositionEntry where
  positionAmt : ℚ
  positionSide : String

/-- A closing order as built by `closePosition`. -/
structure CloseOrder where
  side : OrderSide
  orderType : String
  quantity : ℚ
  reduceOnly : Bool
  positionSide : String

/-- The closing order `closePosition` builds for a nonzero position entry:
opposite-side reduce-only MARKET order sized to the override (JavaScript
`quantity || Math.abs(positionAmt)`, so a null or zero override falls back to
the held amount). -/
def closeOrderFor (p : PositionEntry) (overrideQty : Option ℚ) : CloseOrder :=
  { side := if 0 < p.positionAmt then .SELL else .BUY
    orderType := "MARKET"
    quantity :=
      match overrideQty with
      | some q => if q = 0 then |p.positionAmt| else q
      | none => |p.positionAmt|
    reduceOnly := true
    positionSide := p.positionSide }

/-- `AsterFuturesAPI.closePosition` (index.js): scan the returned position
list, skip zero amounts, place one closing order for the first nonzero entry
and return it immediately; `none` (the code's `null`) when the list is empty
or holds no nonzero entry. -/
def closePosition : List PositionEntry → Option ℚ → Option CloseOrder
  | [], _ => none
  | p :: rest, overrideQty =>
    if p.positionAmt = 0 then closePosition rest overrideQty
    else some (closeOrderFor p overrideQty)

/-- Rounding moves a value by at most half of the last kept decimal. -/
theorem round3_sub_abs_le (x : ℚ) : |round3 x - x| ≤ 1/2000 := by
  have h1 : ((Int.floor (x * 1000 + 1/2) : ℤ) : ℚ) ≤ x * 1000 + 1/2 := Int.floor_le _
  have h2 : x * 1000 + 1/2 < ((Int.floor (x * 1000 + 1/2) : ℤ) : ℚ) + 1 :=
    Int.lt_floor_add_one _
  rw [abs_le]
  unfold round3
  constructor <;> linarith

/-- Rounding fixes values that already have at most 3 decimals. -/
theorem round3_int_div (k : ℤ) : round3 ((k : ℚ)/1000) = (k : ℚ)/1000 := by
  have h : ((k : ℚ)/1000) * 1000 + 1/2 = (k : ℚ) + 1/2 := by ring
  unfold round3
  rw [h]
  have hf : Int.floor ((k : ℚ) + 1/2) = k := by
    rw [Int.floor_eq_iff]
    constructor
    · linarith
    · linarith
  rw [hf]

/-- Anything at least half a trading unit rounds up to at least one unit. -/
theorem round3_ge_min (x : ℚ) (h : 1/2000 ≤ x) : 1/1000 ≤ round3 x := by
  have h1 : (1 : ℤ) ≤ Int.floor (x * 1000 + 1/2) := by
    rw [Int.le_floor]
    push_cast
    linarith
  have h2 : (1 : ℚ) ≤ ((Int.floor (x * 1000 + 1/2) : ℤ) : ℚ) := by exact_mod_cast h1
  unfold round3
  linarith

/-- Every rounded value is an integer multiple of the trading unit. -/
theorem round3_den (x : ℚ) : ∃ j : ℤ, round3 x = (j : ℚ)/1000 :=
  ⟨Int.floor (x * 1000 + 1/2), rfl⟩

/-- C9 counterexample: the requested depth limit 999 is mapped to 5 even
though the supported value 1000 is strictly nearer to it, so the snapping is
not to the nearest supported value. -/
theorem snapDepthLimit_not_nearest :
    snapDepthLimit 999 = 5 ∧ 1000 ∈ validLimits ∧
      ((999 : ℤ) - 1000).natAbs < ((999 : ℤ) - 5).natAbs := by
  refine ⟨?_, ?_, ?_⟩ <;> decide

/-- C9 (amended): `getOrderBook` uses a requested depth limit unchanged when
it belongs to the fixed allowed set and falls back to the smallest supported
value (5) for any other request; the limit actually sent is always in the
allowed set. -/
theorem snapDepthLimit_spec (limit : ℕ) :
    snapDepthLimit limit ∈ validLimits ∧
      (limit ∈ validLimits → snapDepthLimit limit = limit) ∧
      (limit ∉ validLimits → snapDepthLimit limit = 5) := by
  unfold snapDepthLimit
  by_cases h : limit ∈ validLimits
  · rw [if_pos h]
    exact ⟨h, fun _ => rfl, fun hc => absurd h hc⟩
  · rw [if_neg h]
    exact ⟨by decide, fun hc => absurd hc h, fun _ => rfl⟩

/-- Witness for C9's theorem at concrete limits: 10 is kept, 999 falls back to 5. -/
theorem snapDepthLimit_spec_witness :
    snapDepthLimit 10 = 10 ∧ snapDepthLimit 999 = 5 :=
  ⟨(snapDepthLimit_spec 10).2.1 (by decide), (snapDepthLimit_spec 999).2.2 (by decide)⟩

/-- C8 counterexample: the simple client's `makeRequest` (index.js) defaults
`recvWindow` to 5000 ms — below 10,000 — and stamps `timestamp = Date.now()`
with no clock offset, so the claim does not hold of every authenticated call
in this repository. -/
theorem buildRequestSimple_recvWindow_default :
    (buildRequestSimple (fun _ => "sig") 123 [] none true).1 =
      [("timestamp", "123"), ("recvWindow", "5000")] ∧ (5000 : ℤ) < 10000 := by
  constructor
  · rfl
  · decide

/-- C8 (amended): for a caller parameter list that does not itself carry the
`timestamp`/`recvWindow` keys (the JS would overwrite such fields in place),
the resilient `makeRequest` (the three-account variant's request layer) sends
exactly one `timestamp`, equal to `now + clockOffset`, and exactly one
`recvWindow`, defaulting to 10,000 ms when none is configured or when the
caller passed the falsy value 0 (a configured default is clamped to at least
1000, and a nonzero caller value is used verbatim); it signs the URL-encoded
parameter string with the HMAC function and appends the signature;
unauthenticated calls are sent as-is.  The simple client (index.js) instead
defaults `recvWindow` to 5000 ms and applies no clock offset. -/
theorem buildRequestResilient_spec (hmac : String → String) (now offsetMs : ℤ)
    (params : List (String × String))
    (hparams : ∀ kv ∈ params, kv.1 ≠ "timestamp" ∧ kv.1 ≠ "recvWindow") :
    ((buildRequestResilient hmac now offsetMs none params none true).1.filter
        (fun kv => kv.1 == "timestamp") =
      [("timestamp", toString (now + offsetMs))]) ∧
      ((buildRequestResilient hmac now offsetMs none params none true).1.filter
          (fun kv => kv.1 == "recvWindow") =
        [("recvWindow", toString (10000 : ℤ))]) ∧
      ((buildRequestResilient hmac now offsetMs none params none true).2 =
        encodeParams (buildRequestResilient hmac now offsetMs none params none true).1 ++
          "&signature=" ++
          hmac (encodeParams (buildRequestResilient hmac now offsetMs none params none true).1)) ∧
      (∀ c : ℤ, ("recvWindow", toString (max 1000 c)) ∈
        (buildRequestResilient hmac now offsetMs (some c) params none true).1) ∧
      (∀ rw : ℤ, rw ≠ 0 → ("recvWindow", toString rw) ∈
        (buildRequestResilient hmac now offsetMs none params (some rw) true).1) ∧
      (("recvWindow", toString (10000 : ℤ)) ∈
        (buildRequestResilient hmac now offsetMs none params (some 0) true).1) ∧
      (buildRequestResilient hmac now offsetMs none params none false =
        (params, encodeParams params)) := by
  have hfilter : ∀ key : String, (∀ kv ∈ params, kv.1 ≠ key) →
      params.filter (fun kv => kv.1 == key) = [] := by
    intro key hkey
    rw [List.filter_eq_nil_iff]
    intro a ha
    simpa using hkey a ha
  refine ⟨?_, ?_, rfl, ?_, ?_, ?_, rfl⟩
  · show (params ++ [("timestamp", toString (now + offsetMs)),
        ("recvWindow", toString (10000 : ℤ))]).filter (fun kv => kv.1 == "timestamp") = _
    rw [List.filter_append, hfilter "timestamp" (fun kv hkv => (hparams kv hkv).1)]
    rfl
  · show (params ++ [("timestamp", toString (now + offsetMs)),
        ("recvWindow", toString (10000 : ℤ))]).filter (fun kv => kv.1 == "recvWindow") = _
    rw [List.filter_append, hfilter "recvWindow" (fun kv hkv => (hparams kv hkv).2)]
    rfl
  · intro c
    simp [buildRequestResilient]
  · intro rw hrw
    simp [buildRequestResilient, hrw]
  · simp [buildRequestResilient]

/-- Witness for C8's theorem at a concrete parameter list carrying neither
reserved key: the authenticated request sends exactly one timestamp, equal to
now + clockOffset, and exactly one recvWindow at the 10,000 ms default. -/
theorem buildRequestResilient_spec_witness :
    ((buildRequestResilient (fun _ => "h") 5 2 none [("symbol", "BTCUSDT")]
        none true).1.filter (fun kv => kv.1 == "timestamp") =
      [("timestamp", toString ((5 : ℤ) + 2))]) ∧
      ((buildRequestResilient (fun _ => "h") 5 2 none [("symbol", "BTCUSDT")]
          none true).1.filter (fun kv => kv.1 == "recvWindow") =
        [("recvWindow", toString (10000 : ℤ))]) := by
  have h := buildRequestResilient_spec (fun _ => "h") 5 2 [("symbol", "BTCUSDT")]
    (by intro kv hkv; simp at hkv; rw [hkv]; exact ⟨by decide, by decide⟩)
  exact ⟨h.1, h.2.1⟩

/-- C6: against a script of persistently retryable failures, the resilient
`makeRequest` issues exactly `maxRetries + 1` attempts (so `maxRetries`
retries), then propagates the error having fired the alert hook exactly once;
a non-retryable failure is propagated from the first attempt, with no retry. -/
theorem makeRequestRun_spec (maxRetries : ℕ) :
    (∀ rest : List ReqOutcome,
        makeRequestRun maxRetries 0
            (List.replicate (maxRetries + 1) ReqOutcome.failRetryable ++ rest) =
          some ⟨false, maxRetries + 1, 1⟩) ∧
      (∀ rest : List ReqOutcome,
        makeRequestRun maxRetries 0 (ReqOutcome.failFatal :: rest) =
          some ⟨false, 1, 1⟩) ∧
      (∀ rest : List ReqOutcome,
        makeRequestRun maxRetries 0 (ReqOutcome.success :: rest) =
          some ⟨true, 1, 0⟩) := by
  refine ⟨?_, fun rest => rfl, fun rest => rfl⟩
  intro rest
  have key : ∀ (k attempt : ℕ), attempt + k = maxRetries + 1 → 1 ≤ k →
      makeRequestRun maxRetries attempt
          (List.replicate k ReqOutcome.failRetryable ++ rest) =
        some ⟨false, k, 1⟩ := by
    intro k
    induction k with
    | zero => intro attempt _ h1; omega
    | succ n ih =>
      intro attempt hsum _
      rw [List.replicate_succ, List.cons_append]
      show makeRequestRun maxRetries attempt (.failRetryable :: _) = _
      rw [makeRequestRun]
      by_cases hn : n = 0
      · subst hn
        have : attempt + 1 > maxRetries := by omega
        rw [if_pos this]
      · have hlt : ¬ attempt + 1 > maxRetries := by omega
        rw [if_neg hlt, ih (attempt + 1) (by omega) (by omega)]
        rfl
  exact key (maxRetries + 1) 0 (by omega) (by omega)

/-- C7: two interrupt signals, the second arriving while shutdown is already
underway, perform exactly one cancel-all sweep and at most one unwind; the
second signal performs nothing at all (the `exiting` flag), and no unwind is
started when the cycle's own unwind is in progress (the `isClosing` guard),
so a second concurrent unwind never happens. -/
theorem handleInterrupt_idempotent (s : FlowState) (h : s.exiting = false) :
    (handleInterrupt s).2.cancelSweeps +
        (handleInterrupt (handleInterrupt s).1).2.cancelSweeps = 1 ∧
      (handleInterrupt s).2.unwinds +
        (handleInterrupt (handleInterrupt s).1).2.unwinds ≤ 1 ∧
      (handleInterrupt (handleInterrupt s).1).2 = ⟨0, 0⟩ ∧
      (s.isClosing = true →
        (handleInterrupt s).2.unwinds +
          (handleInterrupt (handleInterrupt s).1).2.unwinds = 0) ∧
      (s.isClosing = false →
        (handleInterrupt s).2.unwinds +
          (handleInterrupt (handleInterrupt s).1).2.unwinds = 1) ∧
      (handleInterrupt s).1.exiting = true := by
  cases s with
  | mk e c =>
    subst h
    cases c <;> simp [handleInterrupt]

/-- Witness for C7's theorem: a signal arriving during the cycle's own unwind
cancels orders once and starts no second unwind; the repeated signal does
nothing. -/
theorem handleInterrupt_idempotent_witness :
    (handleInterrupt ⟨false, true⟩).2.cancelSweeps +
        (handleInterrupt (handleInterrupt ⟨false, true⟩).1).2.cancelSweeps = 1 ∧
      (handleInterrupt ⟨false, true⟩).2.unwinds +
        (handleInterrupt (handleInterrupt ⟨false, true⟩).1).2.unwinds = 0 := by
  have h := handleInterrupt_idempotent ⟨false, true⟩ rfl
  exact ⟨h.1, h.2.2.2.1 rfl⟩

/-- C10: `closePosition` places at most one closing order per invocation: for
the first position entry with nonzero amount it returns one reduce-only
MARKET order in the opposite direction, sized to the override quantity or to
that entry's absolute amount, independently of whatever entries follow; a
list whose entries all have zero amount (in particular the empty list)
produces no order. -/
theorem closePosition_spec (l₁ l₂ : List PositionEntry) (p : PositionEntry)
    (ov : Option ℚ) (hz : ∀ q ∈ l₁, q.positionAmt = 0) (hp : p.positionAmt ≠ 0) :
    closePosition (l₁ ++ p :: l₂) ov = some (closeOrderFor p ov) ∧
      closePosition l₁ ov = none ∧
      (closeOrderFor p ov).orderType = "MARKET" ∧
      (closeOrderFor p ov).reduceOnly = true ∧
      (0 < p.positionAmt → (closeOrderFor p ov).side = .SELL) ∧
      (p.positionAmt < 0 → (closeOrderFor p ov).side = .BUY) ∧
      (closeOrderFor p none).quantity = |p.positionAmt| ∧
      (∀ q : ℚ, q ≠ 0 → (closeOrderFor p (some q)).quantity = q) := by
  refine ⟨?_, ?_, rfl, rfl, ?_, ?_, rfl, ?_⟩
  · induction l₁ with
    | nil =>
      rw [List.nil_append]
      show closePosition (p :: l₂) ov = _
      rw [closePosition, if_neg hp]
    | cons a t ih =>
      rw [List.cons_append]
      show closePosition (a :: (t ++ p :: l₂)) ov = _
      rw [closePosition, if_pos (hz a (by simp))]
      exact ih (fun q hq => hz q (by simp [hq]))
  · induction l₁ with
    | nil => rfl
    | cons a t ih =>
      show closePosition (a :: t) ov = none
      rw [closePosition, if_pos (hz a (by simp))]
      exact ih (fun q hq => hz q (by simp [hq]))
  · intro hpos
    simp [closeOrderFor, hpos]
  · intro hneg
    simp [closeOrderFor, not_lt.mpr (le_of_lt hneg)]
  · intro q hq
    simp [closeOrderFor, hq]

/-- Witness for C10's theorem: one zero entry is skipped, the first nonzero
(long) entry yields a reduce-only market sell of its absolute amount, and a
trailing short entry is left untouched. -/
theorem closePosition_spec_witness :
    closePosition [⟨0, "BOTH"⟩, ⟨3/2, "LONG"⟩, ⟨-1, "SHORT"⟩] none =
        some (closeOrderFor ⟨3/2, "LONG"⟩ none) ∧
      (closeOrderFor (⟨3/2, "LONG"⟩ : PositionEntry) none).quantity = |(3/2 : ℚ)| := by
  have h := closePosition_spec [⟨0, "BOTH"⟩] [⟨-1, "SHORT"⟩] ⟨3/2, "LONG"⟩ none
    (by intro q hq; simp at hq; rw [hq]) (by norm_num)
  exact ⟨h.1, h.2.2.2.2.2.2.1⟩

/-- A well-formed report list only carries strictly positive deltas. -/
theorem wellFormedReports_pos (l : List (ℚ × ℚ)) :
    ∀ base : ℚ, wellFormedReports base l → ∀ pr ∈ l, 0 < pr.1 := by
  induction l with
  | nil => intro base _ pr hpr; simp at hpr
  | cons r rest ih =>
    intro base h pr hpr
    obtain ⟨h1, h2, h3⟩ := h
    rcases List.mem_cons.mp hpr with heq | hmem
    · subst heq; rw [h1]; linarith
    · exact ih r.2 h3 pr hmem

/-- The cumulative totals of a well-formed report list strictly increase. -/
theorem wellFormedReports_chain (l : List (ℚ × ℚ)) :
    ∀ base : ℚ, wellFormedReports base l →
      List.Chain' (· < ·) (l.map Prod.snd) := by
  induction l with
  | nil => intro base _; simp
  | cons r rest ih =>
    intro base h
    obtain ⟨h1, h2, h3⟩ := h
    cases rest with
    | nil => simp
    | cons s t =>
      obtain ⟨g1, g2, g3⟩ := h3
      simp only [List.map_cons, List.chain'_cons]
      refine ⟨g2, ?_⟩
      have := ih r.2 ⟨g1, g2, g3⟩
      simpa using this

/-- The deltas of a well-formed report list telescope: they sum to the last
cumulative total minus the starting point. -/
theorem wellFormedReports_sum (l : List (ℚ × ℚ)) :
    ∀ base : ℚ, wellFormedReports base l →
      (l.map Prod.fst).sum = lastCum base l - base := by
  induction l with
  | nil => intro base _; simp [lastCum]
  | cons r rest ih =>
    intro base h
    obtain ⟨h1, h2, h3⟩ := h
    simp only [List.map_cons, List.sum_cons]
    rw [ih r.2 h3, h1]
    show r.2 - base + (lastCum r.2 rest - r.2) = lastCum r.2 rest - base
    ring

/-- Invariant of the streaming monitor: starting from any last-reported
quantity, the reports it emits are well formed and the returned
`totalExecuted` is the last reported cumulative total. -/
theorem monitorRealTime_invariant (polls : List FillPoll) :
    ∀ last : ℚ,
      wellFormedReports last (monitorRealTime last polls).reports ∧
        (monitorRealTime last polls).totalExecuted =
          lastCum last (monitorRealTime last polls).reports := by
  induction polls with
  | nil => intro last; exact ⟨trivial, rfl⟩
  | cons p rest ih =>
    intro last
    rw [monitorRealTime]
    by_cases hpos : 0 < p.executedQty - last
    · rw [if_pos hpos]
      by_cases hf : p.status = .FILLED
      · rw [if_pos hf]
        exact ⟨⟨rfl, by linarith, trivial⟩, rfl⟩
      · rw [if_neg hf]
        by_cases ht : isTerminalFailure p.status = true
        · rw [if_pos ht]
          exact ⟨⟨rfl, by linarith, trivial⟩, rfl⟩
        · rw [if_neg ht]
          obtain ⟨hwf, htot⟩ := ih p.executedQty
          refine ⟨⟨rfl, by linarith, hwf⟩, ?_⟩
          show (monitorRealTime p.executedQty rest).totalExecuted = _
          rw [htot]
          rfl
    · rw [if_neg hpos]
      by_cases hf : p.status = .FILLED
      · rw [if_pos hf]
        exact ⟨trivial, rfl⟩
      · rw [if_neg hf]
        by_cases ht : isTerminalFailure p.status = true
        · rw [if_pos ht]
          exact ⟨trivial, rfl⟩
        · rw [if_neg ht]
          exact ih last

/-- The streaming monitor's behaviour does not depend on whether the
`onPartialFill` callback throws: the `catch` swallows the failure and the
state update runs regardless. -/
theorem monitorRealTime_callback_independent (polls : List FillPoll)
    (f : Bool → Bool) :
    ∀ last : ℚ,
      monitorRealTime last
          (polls.map (fun p => ⟨p.status, p.executedQty, f p.callbackThrows⟩)) =
        monitorRealTime last polls := by
  induction polls with
  | nil => intro last; rfl
  | cons p rest ih =>
    intro last
    simp only [List.map_cons]
    rw [monitorRealTime, monitorRealTime]
    simp only [ih]

/-- C2: over any observed sequence of executed quantities, the streaming
monitor `monitorOrderWithRealTimeExecution` invokes `onPartialFill` only with
strictly positive deltas that are exactly the difference to the previously
reported cumulative total, the reported cumulative totals are strictly
increasing (hence monotonically non-decreasing) so no delta is ever reported
twice, the reported deltas sum to the returned `totalExecuted`, and a
throwing callback (caught and logged by the loop) changes nothing about what
is reported. -/
theorem monitorRealTime_spec (polls : List FillPoll) :
    wellFormedReports 0 (monitorRealTime 0 polls).reports ∧
      ((monitorRealTime 0 polls).reports.map Prod.fst).sum =
        (monitorRealTime 0 polls).totalExecuted ∧
      (∀ pr ∈ (monitorRealTime 0 polls).reports, 0 < pr.1) ∧
      List.Chain' (· < ·) ((monitorRealTime 0 polls).reports.map Prod.snd) ∧
      (∀ f : Bool → Bool,
        monitorRealTime 0
            (polls.map (fun p => ⟨p.status, p.executedQty, f p.callbackThrows⟩)) =
          monitorRealTime 0 polls) := by
  obtain ⟨hwf, htot⟩ := monitorRealTime_invariant polls 0
  refine ⟨hwf, ?_, wellFormedReports_pos _ 0 hwf, wellFormedReports_chain _ 0 hwf,
    fun f => monitorRealTime_callback_independent polls f 0⟩
  rw [wellFormedReports_sum _ 0 hwf, htot]
  ring

/-- Invariant of the blocking monitor run: polls are issued strictly before
the deadline, a timeout outcome carries `filled = false` and
`success = false`, and termination time is bounded by the deadline plus the
largest per-poll latency plus the error-retry interval. -/
theorem monitorOrderStatus_invariant (maxWaitTime L : ℕ) (polls : List TimedPoll)
    (hL : ∀ p ∈ polls, p.latency ≤ L) :
    ∀ (now : ℕ) (res : MonitorOutcome) (endTime : ℕ) (times : List ℕ),
      monitorOrderStatus maxWaitTime now polls = some (res, endTime, times) →
      (∀ t ∈ times, t < maxWaitTime) ∧
        (res.timeout = true → res.filled = false ∧ res.success = false) ∧
        (now ≤ maxWaitTime + L + 5000 → endTime ≤ maxWaitTime + L + 5000) := by
  induction polls with
  | nil =>
    intro now res endTime times h
    rw [monitorOrderStatus] at h
    by_cases hn : now < maxWaitTime
    · rw [if_pos hn] at h
      exact absurd h (by simp)
    · rw [if_neg hn] at h
      simp only [Option.some.injEq, Prod.mk.injEq] at h
      obtain ⟨hres, hend, htimes⟩ := h
      subst hres hend htimes
      refine ⟨by simp, fun _ => ⟨rfl, rfl⟩, fun hnow => hnow⟩
  | cons p rest ih =>
    intro now res endTime times h
    have hpL : p.latency ≤ L := hL p (by simp)
    have hrest : ∀ q ∈ rest, q.latency ≤ L := fun q hq => hL q (by simp [hq])
    rw [monitorOrderStatus] at h
    by_cases hn : now < maxWaitTime
    · rw [if_pos hn] at h
      cases hr : p.reply with
      | ok s q =>
        rw [hr] at h
        dsimp only at h
        by_cases hs : s = .FILLED
        · rw [if_pos hs] at h
          simp only [Option.some.injEq, Prod.mk.injEq] at h
          obtain ⟨hres, hend, htimes⟩ := h
          subst hres hend htimes
          refine ⟨by simpa using hn, ?_, fun _ => by omega⟩
          intro hto
          simp at hto
        · rw [if_neg hs] at h
          by_cases ht : isTerminalFailure s = true
          · rw [if_pos ht] at h
            simp only [Option.some.injEq, Prod.mk.injEq] at h
            obtain ⟨hres, hend, htimes⟩ := h
            subst hres hend htimes
            refine ⟨by simpa using hn, fun hto => by simp at hto, fun _ => by omega⟩
          · rw [if_neg ht] at h
            obtain ⟨⟨res', endT', times'⟩, hrec, hmap⟩ := Option.map_eq_some'.mp h
            simp only [Prod.mk.injEq] at hmap
            obtain ⟨hres, hend, htimes⟩ := hmap
            subst hres hend htimes
            obtain ⟨ih1, ih2, ih3⟩ := ih hrest (now + p.latency + 3000) res' endT' times' hrec
            refine ⟨?_, ih2, fun _ => ih3 (by omega)⟩
            intro t htmem
            rcases List.mem_cons.mp htmem with heq | hmem
            · omega
            · exact ih1 t hmem
      | err =>
        rw [hr] at h
        dsimp only at h
        obtain ⟨⟨res', endT', times'⟩, hrec, hmap⟩ := Option.map_eq_some'.mp h
        simp only [Prod.mk.injEq] at hmap
        obtain ⟨hres, hend, htimes⟩ := hmap
        subst hres hend htimes
        obtain ⟨ih1, ih2, ih3⟩ := ih hrest (now + p.latency + 5000) res' endT' times' hrec
        refine ⟨?_, ih2, fun _ => ih3 (by omega)⟩
        intro t htmem
        rcases List.mem_cons.mp htmem with heq | hmem
        · omega
        · exact ih1 t hmem
    · rw [if_neg hn] at h
      simp only [Option.some.injEq, Prod.mk.injEq] at h
      obtain ⟨hres, hend, htimes⟩ := h
      subst hres hend htimes
      refine ⟨by simp, fun _ => ⟨rfl, rfl⟩, fun hnow => hnow⟩

/-- C4 counterexample: with a 1000 ms deadline and a single poll whose
network round-trip takes 10000 ms and then fails, monitoring returns (with
`timeout = true`) only at elapsed time 15000 ms — well past `maxWaitTime` —
so monitoring does not always stop within `maxWaitTime` of its start
regardless of network conditions. -/
theorem monitorOrderStatus_not_within_deadline :
    monitorOrderStatus 1000 0 [⟨.err, 10000⟩] =
        some (⟨false, false, true⟩, 15000, [0]) ∧ 1000 < 15000 := by
  exact ⟨rfl, by omega⟩

/-- C4 (amended): `monitorOrderStatus` never issues a poll at or after the
`maxWaitTime` deadline; when it reports a timeout it returns `filled = false`
(and `success = false`); a transient polling error is swallowed and retried
after the longer 5000 ms error interval instead of terminating monitoring;
and the call returns within `maxWaitTime` plus one in-flight poll's latency
plus the error interval — but not necessarily within `maxWaitTime` itself
when the last poll's network latency is unbounded. -/
theorem monitorOrderStatus_deadline (maxWaitTime L : ℕ) (polls : List TimedPoll)
    (res : MonitorOutcome) (endTime : ℕ) (times : List ℕ)
    (hL : ∀ p ∈ polls, p.latency ≤ L)
    (hrun : monitorOrderStatus maxWaitTime 0 polls = some (res, endTime, times)) :
    (∀ t ∈ times, t < maxWaitTime) ∧
      (res.timeout = true → res.filled = false ∧ res.success = false) ∧
      endTime ≤ maxWaitTime + L + 5000 ∧
      (∀ (lat : ℕ) (rest : List TimedPoll), 0 < maxWaitTime →
        monitorOrderStatus maxWaitTime 0 (⟨.err, lat⟩ :: rest) =
          (monitorOrderStatus maxWaitTime (lat + 5000) rest).map
            (fun r => (r.1, r.2.1, 0 :: r.2.2))) := by
  obtain ⟨h1, h2, h3⟩ :=
    monitorOrderStatus_invariant maxWaitTime L polls hL 0 res endTime times hrun
  refine ⟨h1, h2, h3 (by omega), ?_⟩
  intro lat rest hpos
  rw [monitorOrderStatus, if_pos hpos]
  dsimp only
  rw [Nat.zero_add]

/-- Witness for C4's theorem: a single FILLED poll with 7 ms latency against
a 5 ms deadline — the poll was issued before the deadline and the run ended
within the deadline-plus-latency-plus-error-interval bound. -/
theorem monitorOrderStatus_deadline_witness :
    (0 : ℕ) < 5 ∧ (7 : ℕ) ≤ 5 + 7 + 5000 := by
  have h := monitorOrderStatus_deadline 5 7 [⟨.ok .FILLED 1, 7⟩]
    ⟨true, true, false⟩ 7 [0] (by intro p hp; simp at hp; rw [hp]) rfl
  exact ⟨h.1 0 (by simp), h.2.2.1⟩

/-- Arithmetic core of the distribution bound: a floor-adjusted share keeps
at least half a trading unit of the rescaled target. -/
theorem share_ge (m f1 f2 : ℚ) (hm : 1/1000 ≤ m)
    (hf1l : 1/1000 ≤ f1) (hf2l : 1/1000 ≤ f2)
    (hf1u : f1 ≤ max (4*m/5) (1/1000)) (hf2u : f2 ≤ max (4*m/5) (1/1000)) :
    1/2000 ≤ f1 * (m / (f1 + f2)) := by
  have htot0 : 0 < f1 + f2 := by linarith
  rw [mul_div_assoc', le_div_iff₀ htot0]
  by_cases hms : m ≤ 1/800
  · have hmax : max (4*m/5) (1/1000 : ℚ) = 1/1000 := max_eq_right (by linarith)
    rw [hmax] at hf1u hf2u
    have hf1 : f1 = 1/1000 := le_antisymm hf1u hf1l
    have hf2 : f2 = 1/1000 := le_antisymm hf2u hf2l
    rw [hf1, hf2]
    linarith
  · push_neg at hms
    have hmax : max (4*m/5) (1/1000 : ℚ) = 4*m/5 := max_eq_left (by linarith)
    rw [hmax] at hf1u hf2u
    have hfm : 1/1000 * m ≤ f1 * m := by nlinarith
    nlinarith

/-- Full behaviour of `generateQuantityDistribution` for a main quantity that
is a positive multiple of the trading unit and a split ratio in [0.2, 0.8]:
the main quantity is returned unchanged, each helper share is at least the
minimum unit, the shares sum to the main quantity within one trading unit,
and each share is itself a multiple of the trading unit. -/
theorem dist_props (m r : ℚ) (hm3 : ∃ j : ℤ, m = (j : ℚ)/1000)
    (hm : 1/1000 ≤ m) (hr1 : 1/5 ≤ r) (hr2 : r ≤ 4/5) :
    (generateQuantityDistribution m r).mainQuantity = m ∧
      1/1000 ≤ (generateQuantityDistribution m r).q1 ∧
      1/1000 ≤ (generateQuantityDistribution m r).q2 ∧
      |(generateQuantityDistribution m r).q1 +
          (generateQuantityDistribution m r).q2 - m| ≤ 1/1000 ∧
      (∃ a : ℤ, (generateQuantityDistribution m r).q1 = (a : ℚ)/1000) ∧
      (∃ b : ℤ, (generateQuantityDistribution m r).q2 = (b : ℚ)/1000) := by
  obtain ⟨j, hj⟩ := hm3
  have hmain : round3 m = m := by rw [hj]; exact round3_int_div j
  have hm0 : (0:ℚ) < m := by linarith
  have hq1u : m * r ≤ 4*m/5 := by nlinarith
  have hq2u : m * (1 - r) ≤ 4*m/5 := by nlinarith
  simp only [generateQuantityDistribution, minTradeQuantity]
  set f1 := max (m * r) (1/1000 : ℚ) with hf1d
  set f2 := max (m * (1 - r)) (1/1000 : ℚ) with hf2d
  have hf1l : (1:ℚ)/1000 ≤ f1 := le_max_right _ _
  have hf2l : (1:ℚ)/1000 ≤ f2 := le_max_right _ _
  have hf1q : m * r ≤ f1 := le_max_left _ _
  have hf2q : m * (1 - r) ≤ f2 := le_max_left _ _
  have hf1u : f1 ≤ max (4*m/5) (1/1000 : ℚ) := max_le_max hq1u le_rfl
  have hf2u : f2 ≤ max (4*m/5) (1/1000 : ℚ) := max_le_max hq2u le_rfl
  have htot0 : 0 < f1 + f2 := by linarith
  split_ifs with hc
  · have hs1 := share_ge m f1 f2 hm hf1l hf2l hf1u hf2u
    have hs2 : 1/2000 ≤ f2 * (m / (f1 + f2)) := by
      have h := share_ge m f2 f1 hm hf2l hf1l hf2u hf1u
      calc (1:ℚ)/2000 ≤ f2 * (m / (f2 + f1)) := h
        _ = f2 * (m / (f1 + f2)) := by ring_nf
    have hsum_exact : f1 * (m / (f1 + f2)) + f2 * (m / (f1 + f2)) = m := by
      field_simp
      ring
    have e1 := round3_sub_abs_le (f1 * (m / (f1 + f2)))
    have e2 := round3_sub_abs_le (f2 * (m / (f1 + f2)))
    rw [abs_le] at e1 e2
    refine ⟨hmain, round3_ge_min _ hs1, round3_ge_min _ hs2, ?_, ⟨_, rfl⟩, ⟨_, rfl⟩⟩
    rw [abs_le]
    constructor <;> linarith
  · push_neg at hc
    have hqsum : m * r + m * (1 - r) = m := by ring
    have htoteq : f1 + f2 = m := le_antisymm hc (by linarith)
    have hf1e : f1 = m * r := by linarith
    have hf2e : f2 = m * (1 - r) := by linarith
    have e1 := round3_sub_abs_le f1
    have e2 := round3_sub_abs_le f2
    rw [abs_le] at e1 e2
    refine ⟨hmain, round3_ge_min _ (by linarith), round3_ge_min _ (by linarith),
      ?_, ⟨_, rfl⟩, ⟨_, rfl⟩⟩
    rw [abs_le]
    constructor <;> linarith

/-- `validateHelperQty` fixes a share that is a multiple of the trading unit
and at least the minimum. -/
theorem validateHelperQty_id (q : ℚ) (hq3 : ∃ j : ℤ, q = (j : ℚ)/1000)
    (hq : 1/1000 ≤ q) : validateHelperQty q = q := by
  obtain ⟨j, hj⟩ := hq3
  unfold validateHelperQty
  rw [hj, round3_int_div, if_neg (by rw [← hj]; intro hle; linarith)]

/-- Behaviour of the reconciler when the tolerance is exceeded: one
corrective order sized to the rounded difference on the under-hedged side,
after which the position-size difference is within tolerance. -/
theorem reconcile_core (p1 p2 : ℚ) (h1 : 0 ≤ p1) (h2 : p2 ≤ 0)
    (hd : hedgeTolerance < |(|p1| - |p2|)|) :
    (|p2| < |p1| → validateAndFixHedgeQuantity p1 p2 =
        (some ⟨2, .SELL, round3 (|p1| - |p2|)⟩, p1, p2 - round3 (|p1| - |p2|))) ∧
      (|p1| < |p2| → validateAndFixHedgeQuantity p1 p2 =
        (some ⟨1, .BUY, round3 (|p2| - |p1|)⟩, p1 + round3 (|p2| - |p1|), p2)) ∧
      (validateAndFixHedgeQuantity p1 p2).1 ≠ none ∧
      |(|(validateAndFixHedgeQuantity p1 p2).2.1| -
          |(validateAndFixHedgeQuantity p1 p2).2.2|)| ≤ hedgeTolerance := by
  have htolpos : (0:ℚ) < hedgeTolerance := by norm_num [hedgeTolerance]
  have habs0 : (0:ℚ) < |(|p1| - |p2|)| := lt_trans htolpos hd
  have hne : |p1| ≠ |p2| := by
    intro heq
    rw [heq, sub_self, abs_zero] at habs0
    exact lt_irrefl 0 habs0
  rcases lt_or_gt_of_ne hne with hlt | hgt
  · -- account 2 holds more: account 1 buys
    have hdiffpos : 0 < |p2| - |p1| := by linarith
    have habs : |(|p1| - |p2|)| = |p2| - |p1| := by
      rw [abs_sub_comm]
      exact abs_of_pos hdiffpos
    have hfmt : formatQuantity (|p2| - |p1|) = round3 (|p2| - |p1|) := by
      unfold formatQuantity
      rw [if_neg (ne_of_gt hdiffpos)]
    have hfix : 1/1000 ≤ round3 (|p2| - |p1|) := by
      apply round3_ge_min
      rw [habs] at hd
      have : hedgeTolerance = 1/1000 := rfl
      linarith [hd, this ▸ hd]
    have heq : validateAndFixHedgeQuantity p1 p2 =
        (some ⟨1, .BUY, round3 (|p2| - |p1|)⟩, p1 + round3 (|p2| - |p1|), p2) := by
      unfold validateAndFixHedgeQuantity
      rw [if_pos hd, if_neg (by intro hgt2; exact absurd hgt2 (not_lt.mpr (le_of_lt hlt))),
        if_pos hlt, hfmt]
    refine ⟨fun hgt2 => absurd hgt2 (not_lt.mpr (le_of_lt hlt)), fun _ => heq, ?_, ?_⟩
    · rw [heq]; simp
    · rw [heq]
      have hp1a : |p1| = p1 := abs_of_nonneg h1
      have hnew : |p1 + round3 (|p2| - |p1|)| = |p1| + round3 (|p2| - |p1|) := by
        rw [abs_of_nonneg (by linarith), hp1a]
      show |(|p1 + round3 (|p2| - |p1|)| - |p2|)| ≤ hedgeTolerance
      rw [hnew]
      have e := round3_sub_abs_le (|p2| - |p1|)
      rw [abs_le] at e
      rw [abs_le]
      have : hedgeTolerance = 1/1000 := rfl
      rw [this]
      constructor <;> linarith
  · -- account 1 holds more: account 2 sells
    have hdiffpos : 0 < |p1| - |p2| := by linarith
    have habs : |(|p1| - |p2|)| = |p1| - |p2| := abs_of_pos hdiffpos
    have hfmt : formatQuantity (|p1| - |p2|) = round3 (|p1| - |p2|) := by
      unfold formatQuantity
      rw [if_neg (ne_of_gt hdiffpos)]
    have hfix : 1/1000 ≤ round3 (|p1| - |p2|) := by
      apply round3_ge_min
      rw [habs] at hd
      have : hedgeTolerance = 1/1000 := rfl
      linarith [this ▸ hd]
    have heq : validateAndFixHedgeQuantity p1 p2 =
        (some ⟨2, .SELL, round3 (|p1| - |p2|)⟩, p1, p2 - round3 (|p1| - |p2|)) := by
      unfold validateAndFixHedgeQuantity
      rw [if_pos hd, if_pos hgt, hfmt]
    refine ⟨fun _ => heq, fun hlt2 => absurd hlt2 (not_lt.mpr (le_of_lt hgt)), ?_, ?_⟩
    · rw [heq]; simp
    · rw [heq]
      have hp2a : |p2| = -p2 := abs_of_nonpos h2
      have hnew : |p2 - round3 (|p1| - |p2|)| = |p2| + round3 (|p1| - |p2|) := by
        rw [abs_of_nonpos (by linarith), hp2a]
        ring
      show |(|p1| - |p2 - round3 (|p1| - |p2|)|)| ≤ hedgeTolerance
      rw [hnew]
      have e := round3_sub_abs_le (|p1| - |p2|)
      rw [abs_le] at e
      rw [abs_le]
      have : hedgeTolerance = 1/1000 := rfl
      rw [this]
      constructor <;> linarith

/-- C3 counterexample: with main quantity 0.005 and split ratio 0.5, both
helper shares (0.0025 each before formatting) round up to 0.003, so the
shares sum to 0.006 while the target is 0.005 — the invariant
`sum(helper shares) == target` does not hold exactly after rescaling. -/
theorem generateQuantityDistribution_sum_not_exact :
    (generateQuantityDistribution (5/1000) (1/2)).q1 +
        (generateQuantityDistribution (5/1000) (1/2)).q2 ≠
      (generateQuantityDistribution (5/1000) (1/2)).mainQuantity := by
  norm_num [generateQuantityDistribution, minTradeQuantity, round3, Int.floor_eq_iff]

/-- C3 (amended): for every distribution whose drawn main quantity is a
positive multiple of the 0.001 trading unit and whose split ratio lies in
[0.2, 0.8], each helper share is at least the minimum quantity (0.001) and
the helper shares sum to the main (target) quantity to within 0.001: the
rescaled pre-rounding shares sum to the target exactly, but the final
3-decimal formatting of each share can move the sum away from the target by
up to one trading unit, so exact equality does not hold in general. -/
theorem generateQuantityDistribution_spec (m r : ℚ)
    (hm3 : ∃ j : ℤ, m = (j : ℚ)/1000) (hm : 1/1000 ≤ m)
    (hr1 : 1/5 ≤ r) (hr2 : r ≤ 4/5) :
    (generateQuantityDistribution m r).mainQuantity = m ∧
      minTradeQuantity ≤ (generateQuantityDistribution m r).q1 ∧
      minTradeQuantity ≤ (generateQuantityDistribution m r).q2 ∧
      |(generateQuantityDistribution m r).q1 +
          (generateQuantityDistribution m r).q2 - m| ≤ 1/1000 := by
  obtain ⟨h1, h2, h3, h4, _, _⟩ := dist_props m r hm3 hm hr1 hr2
  exact ⟨h1, h2, h3, h4⟩

/-- Witness for C3's theorem at main quantity 0.01 and split ratio 0.5. -/
theorem generateQuantityDistribution_spec_witness :
    (generateQuantityDistribution (1/100) (1/2)).mainQuantity = 1/100 ∧
      minTradeQuantity ≤ (generateQuantityDistribution (1/100) (1/2)).q1 ∧
      minTradeQuantity ≤ (generateQuantityDistribution (1/100) (1/2)).q2 ∧
      |(generateQuantityDistribution (1/100) (1/2)).q1 +
          (generateQuantityDistribution (1/100) (1/2)).q2 - 1/100| ≤ 1/1000 :=
  generateQuantityDistribution_spec (1/100) (1/2) ⟨10, by norm_num⟩
    (by norm_num) (by norm_num) (by norm_num)

/-- C1: at the end of a successful hedge phase of the three-account cycle —
the primary limit order FILLED, so its executed quantity is the distributed
main quantity, and the helper market orders dispatched at the
ratio-adjusted, validated shares — the helpers' total executed quantity
matches the primary executed quantity within the 0.001 tolerance; and
whenever live positions violate the tolerance, the quantity reconciler
(`validateAndFixHedgeQuantity`) issues a corrective order that restores the
difference to within tolerance before the cycle is considered closed. -/
theorem hedge_invariant_and_reconciler :
    (∀ m r : ℚ, (∃ j : ℤ, m = (j : ℚ)/1000) → 1/1000 ≤ m → 1/5 ≤ r → r ≤ 4/5 →
      |(helperHedgeQuantities (generateQuantityDistribution m r)
            (generateQuantityDistribution m r).mainQuantity).1 +
          (helperHedgeQuantities (generateQuantityDistribution m r)
            (generateQuantityDistribution m r).mainQuantity).2 -
          (generateQuantityDistribution m r).mainQuantity| ≤ hedgeTolerance) ∧
    (∀ pos1 pos2 : ℚ, 0 ≤ pos1 → pos2 ≤ 0 →
      hedgeTolerance < |(|pos1| - |pos2|)| →
      (validateAndFixHedgeQuantity pos1 pos2).1 ≠ none ∧
        |(|(validateAndFixHedgeQuantity pos1 pos2).2.1| -
            |(validateAndFixHedgeQuantity pos1 pos2).2.2|)| ≤ hedgeTolerance) := by
  constructor
  · intro m r hm3 hm hr1 hr2
    obtain ⟨hmain, hq1, hq2, hsum, ha, hb⟩ := dist_props m r hm3 hm hr1 hr2
    have hm0 : (0:ℚ) < m := by linarith
    rw [hmain]
    unfold helperHedgeQuantities
    rw [hmain, div_self (ne_of_gt hm0)]
    simp only [mul_one]
    rw [validateHelperQty_id _ ha hq1, validateHelperQty_id _ hb hq2]
    have : hedgeTolerance = 1/1000 := rfl
    rw [this]
    exact hsum
  · intro pos1 pos2 h1 h2 hd
    obtain ⟨_, _, h3, h4⟩ := reconcile_core pos1 pos2 h1 h2 hd
    exact ⟨h3, h4⟩

/-- Witness for C1's theorem: the hedge-phase bound at main quantity 0.02
with split ratio 0.25, and the reconciler restoring positions (+0.01, 0). -/
theorem hedge_invariant_and_reconciler_witness :
    |(helperHedgeQuantities (generateQuantityDistribution (1/50) (1/4))
          (generateQuantityDistribution (1/50) (1/4)).mainQuantity).1 +
        (helperHedgeQuantities (generateQuantityDistribution (1/50) (1/4))
          (generateQuantityDistribution (1/50) (1/4)).mainQuantity).2 -
        (generateQuantityDistribution (1/50) (1/4)).mainQuantity| ≤ hedgeTolerance ∧
      (validateAndFixHedgeQuantity (1/100) 0).1 ≠ none ∧
      |(|(validateAndFixHedgeQuantity (1/100) 0).2.1| -
          |(validateAndFixHedgeQuantity (1/100) 0).2.2|)| ≤ hedgeTolerance := by
  refine ⟨hedge_invariant_and_reconciler.1 (1/50) (1/4) ⟨20, by norm_num⟩
    (by norm_num) (by norm_num) (by norm_num), ?_⟩
  exact hedge_invariant_and_reconciler.2 (1/100) 0 (by norm_num) (by norm_num)
    (by rw [abs_of_nonneg (le_of_lt (by norm_num : (0:ℚ) < 1/100)), abs_zero]
        rw [sub_zero, abs_of_pos (by norm_num : (0:ℚ) < 1/100)]
        norm_num [hedgeTolerance])

/-- C5 counterexample: for positions (+0.004, -0.0035) the size difference is
0.0005, which does not exceed the 0.001 tolerance, so the reconciler issues
no corrective order at all — contradicting the claimed scenario in which a
0.0005 corrective order is issued on the under-hedged side. -/
theorem validateAndFixHedgeQuantity_scenario :
    validateAndFixHedgeQuantity (4/1000) (-(35/10000)) =
      (none, 4/1000, -(35/10000)) := by
  unfold validateAndFixHedgeQuantity
  rw [if_neg]
  rw [abs_neg, abs_of_pos (show (0:ℚ) < 4/1000 by norm_num),
    abs_of_pos (show (0:ℚ) < 35/10000 by norm_num),
    abs_of_pos (show (0:ℚ) < 4/1000 - 35/10000 by norm_num)]
  norm_num [hedgeTolerance]

/-- C5 (amended): the reconciler issues a corrective MARKET order exactly when
the position-size difference exceeds the 0.001 tolerance — in particular it
issues nothing for positions (+0.004, -0.0035), whose difference 0.0005 is
within tolerance — and when it does act it issues a single order on the
under-hedged account sized to the difference rounded to 3 decimals (not the
raw difference), after which one re-check finds the difference within
tolerance. -/
theorem validateAndFixHedgeQuantity_spec (pos1 pos2 : ℚ)
    (h1 : 0 ≤ pos1) (h2 : pos2 ≤ 0) :
    (|(|pos1| - |pos2|)| ≤ hedgeTolerance →
      validateAndFixHedgeQuantity pos1 pos2 = (none, pos1, pos2)) ∧
    (hedgeTolerance < |(|pos1| - |pos2|)| →
      (|pos2| < |pos1| → validateAndFixHedgeQuantity pos1 pos2 =
          (some ⟨2, .SELL, round3 (|pos1| - |pos2|)⟩, pos1,
            pos2 - round3 (|pos1| - |pos2|))) ∧
      (|pos1| < |pos2| → validateAndFixHedgeQuantity pos1 pos2 =
          (some ⟨1, .BUY, round3 (|pos2| - |pos1|)⟩,
            pos1 + round3 (|pos2| - |pos1|), pos2)) ∧
      |(|(validateAndFixHedgeQuantity pos1 pos2).2.1| -
          |(validateAndFixHedgeQuantity pos1 pos2).2.2|)| ≤ hedgeTolerance) := by
  constructor
  · intro hle
    unfold validateAndFixHedgeQuantity
    rw [if_neg (not_lt.mpr hle)]
  · intro hd
    obtain ⟨hc1, hc2, _, hc4⟩ := reconcile_core pos1 pos2 h1 h2 hd
    exact ⟨hc1, hc2, hc4⟩

/-- Witness for C5's theorem: positions (+0.005, -0.002) differ by 0.003,
above tolerance; the corrective sell on account 2 restores the difference to
within tolerance. -/
theorem validateAndFixHedgeQuantity_spec_witness :
    |(|(validateAndFixHedgeQuantity (1/200) (-(1/500))).2.1| -
        |(validateAndFixHedgeQuantity (1/200) (-(1/500))).2.2|)| ≤ hedgeTolerance :=
  ((validateAndFixHedgeQuantity_spec (1/200) (-(1/500)) (by norm_num)
      (by norm_num)).2
    (by rw [abs_neg, abs_of_pos (show (0:ℚ) < 1/200 by norm_num),
          abs_of_pos (show (0:ℚ) < 1/500 by norm_num),
          abs_of_pos (show (0:ℚ) < 1/200 - 1/500 by norm_num)]
        norm_num [hedgeTolerance])).2.2

end AsterTools
